import Mathlib

/-!
Verification of the async flow-control core of mxweb-utils: the `sleep`
primitive, the `Retry` controller (src/retry.ts) and the `RateLimiter`
(src/http.ts).  JavaScript runtime values that can be thrown are modelled
by `JsValue`; promises that settle are modelled by `Except JsValue`;
wall-clock time and durations are modelled by `Int` milliseconds.
-/

/-- A JavaScript value as far as the error paths of this library observe it:
an `Error` object carrying a `message`, a plain string, a number, or
`undefined`. -/
inductive JsValue where
  | errObj (message : String)
  | str (s : String)
  | num (n : Int)
  | undef
deriving DecidableEq, Repr

/-- `error instanceof Error ? error.message : String(error)` from
`Retry.execute`: the textual description extracted from a thrown value. -/
def errorMessageOf : JsValue → String
  | JsValue.errObj m => m
  | JsValue.str s => s
  | JsValue.num n => toString n
  | JsValue.undef => "undefined"

/-- `needle` occurs contiguously inside `hay`. -/
def strContains (hay needle : String) : Prop :=
  ∃ pre post, hay = pre ++ needle ++ post

/-- `sleep` from src/get-type-name.ts:
`new Promise((resolve) => setTimeout(resolve, Math.max(ms, 0)))`.
The first component is the elapsed time until the promise settles and the
second is the settlement itself: the executor only ever calls `resolve`,
so the outcome is always `ok`. -/
def sleep (ms : Int) : Int × Except JsValue Unit :=
  (max ms 0, Except.ok ())

namespace Retry

/-- `RetryOptions` from src/retry.ts; `none` models an omitted field. -/
structure RetryOptions where
  maxRetries : Option Int := none
  delay : Option Int := none
deriving DecidableEq, Repr

/-- `Retry.DEFAULT_DELAY`. -/
def DEFAULT_DELAY : Int := 1500

/-- `this.options.delay || Retry.DEFAULT_DELAY`: JavaScript `||` substitutes
the default for every falsy configured value, i.e. for an omitted field and
for a configured `0`. -/
def effDelay (o : RetryOptions) : Int :=
  match o.delay with
  | none => DEFAULT_DELAY
  | some d => if d = 0 then DEFAULT_DELAY else d

/-- `this.options.maxRetries || 1`. -/
def effMaxRetries (o : RetryOptions) : Int :=
  match o.maxRetries with
  | none => 1
  | some m => if m = 0 then 1 else m

/-- The message of the terminal error thrown on the final failed attempt:
`| Mailer Retry > Max retries reached (${maxRetries}): ${errorMessage}`. -/
def maxRetriesMessage (maxRetries : Nat) (e : JsValue) : String :=
  "| Mailer Retry > Max retries reached (" ++ toString maxRetries ++ "): "
    ++ errorMessageOf e

/-- The observable behaviour of one call to `Retry.execute`: how the promise
settles, how many times the callback was invoked, and the sequence of
inter-attempt sleeps that were taken. -/
structure RetryRun (V : Type) where
  result : Except JsValue V
  calls : Nat
  sleeps : List Int
deriving Repr

/-- The `for (let attemp = 1; attemp <= maxRetries; attemp++)` loop of
`Retry.execute`, as a count-down recursion: at `remaining = r + 1` the loop
variable `attemp` has value `maxRetries - r`, so `remaining = maxRetries`
corresponds to `attemp = 1` and `remaining = 1` to the final permitted
attempt `attemp = maxRetries`.  `outcomes k` is how the `k`-th invocation of
the callback settles.  On a failure of a non-final attempt the loop sleeps
`delay` ms and continues; on a failure of the final attempt it throws the
terminal error.  `remaining = 0` is the loop falling through, which rethrows
`lastError` (still `undefined` when the body never ran). -/
def executeAux (outcomes : Nat → Except JsValue V) (delay : Int)
    (maxRetries : Nat) : Nat → RetryRun V
  | 0 => ⟨Except.error JsValue.undef, 0, []⟩
  | r + 1 =>
    match outcomes (maxRetries - r) with
    | Except.ok v => ⟨Except.ok v, 1, []⟩
    | Except.error e =>
      if r = 0 then
        ⟨Except.error (JsValue.errObj (maxRetriesMessage maxRetries e)), 1, []⟩
      else
        let rest := executeAux outcomes delay maxRetries r
        ⟨rest.result, rest.calls + 1, delay :: rest.sleeps⟩

/-- `Retry.execute`: resolve the effective options, then run the attempt
loop starting at `attemp = 1`.  When the effective `maxRetries` is below 1
(only possible for a configured negative value) the loop body never runs and
the trailing `throw lastError` throws `undefined`. -/
def execute (o : RetryOptions) (outcomes : Nat → Except JsValue V) :
    RetryRun V :=
  let delay := effDelay o
  let maxRetries := effMaxRetries o
  if maxRetries < 1 then ⟨Except.error JsValue.undef, 0, []⟩
  else executeAux outcomes delay maxRetries.toNat maxRetries.toNat

end Retry

namespace RateLimiter

/-- `RateLimitOptions` from src/http.ts; `none` models an omitted field. -/
structure RateLimitOptions where
  maxRequests : Option Int := none
  interval : Option Int := none
deriving DecidableEq, Repr

/-- `RateLimiter.DEFAULT_DELAY`. -/
def DEFAULT_DELAY : Int := 1500

/-- `RateLimiter.DEFAULT_MAX_REQUESTS`. -/
def DEFAULT_MAX_REQUESTS : Int := 1

/-- `this.options.interval || RateLimiter.DEFAULT_DELAY`: the default is
substituted for every falsy configured value (omitted or `0`). -/
def effInterval (o : RateLimitOptions) : Int :=
  match o.interval with
  | none => DEFAULT_DELAY
  | some i => if i = 0 then DEFAULT_DELAY else i

/-- `this.options.maxRequests || RateLimiter.DEFAULT_MAX_REQUESTS`. -/
def effMaxRequests (o : RateLimitOptions) : Int :=
  match o.maxRequests with
  | none => DEFAULT_MAX_REQUESTS
  | some m => if m = 0 then DEFAULT_MAX_REQUESTS else m

/-- One call to `RateLimiter.waitForSlot`, given the current
`requestTimes` log and the value `Date.now()` returned at its first line.
Returns `some elapsed` when the `await sleep(delay)` branch was taken
(`elapsed` being the time the sleep suspends for) and `none` when it was
not, together with the new `requestTimes`.

When `maxRequests <= 0` is configured the length test succeeds on an empty
pruned log; `this.requestTimes[0]!` is then `undefined`, the computed delay
is `NaN`, and `setTimeout` coerces the `NaN` timeout to `0`, so that branch
sleeps for 0 ms. -/
def waitForSlot (o : RateLimitOptions) (requestTimes : List Int)
    (now : Int) : Option Int × List Int :=
  let interval := effInterval o
  let maxRequests := effMaxRequests o
  let pruned := requestTimes.filter (fun time => time > now - interval)
  if (pruned.length : Int) ≥ maxRequests then
    match pruned.head? with
    | some oldRequestTime =>
      (some (sleep (oldRequestTime + interval - now)).1, pruned ++ [now])
    | none => (some 0, pruned ++ [now])
  else
    (none, pruned ++ [now])

/-- The wall-clock time at which the entry whose admission check ran at
time `now` on log `log` begins executing: `now` plus the elapsed sleep, if
any. -/
def stepStart (o : RateLimitOptions) (log : List Int) (now : Int) : Int :=
  now + ((waitForSlot o log now).1.getD 0)

/-- The `requestTimes` log after the first `i` admission checks of a run
whose `i`-th check reads `Date.now() = n i`.  The log starts empty. -/
def runLog (o : RateLimitOptions) (n : Nat → Int) : Nat → List Int
  | 0 => []
  | i + 1 => (waitForSlot o (runLog o n i) (n i)).2

/-- The execution-start time of the `i`-th admitted entry of the run. -/
def startAt (o : RateLimitOptions) (n : Nat → Int) (i : Nat) : Int :=
  stepStart o (runLog o n i) (n i)

/-- The drain loop in `RateLimiter.queue` awaits each dequeued entry —
admission check plus unit of work — to completion before dequeuing the
next, so the `(i+1)`-st check's `Date.now()` is never earlier than the
`i`-th entry's execution start. -/
def SeqOk (o : RateLimitOptions) (n : Nat → Int) : Prop :=
  ∀ i, startAt o n i ≤ n (i + 1)

/-- The pruned log computed by the `i`-th admission check. -/
def prunedAt (o : RateLimitOptions) (n : Nat → Int) (i : Nat) : List Int :=
  (runLog o n i).filter (fun time => time > n i - effInterval o)

/-- The drain loop of `RateLimiter.queue` over a queue of entries, each
entry being the settlement of its unit of work together with the time the
work takes: `while (this.queues.length) { const callback =
this.queues.shift()!; await callback(); }`, where each callback is the
closure pushed by `handle`: `await waitForSlot()` then run the work,
resolving the entry's promise with its result or rejecting with its error
(the `try/catch` keeps the closure itself from ever throwing, so the loop
always proceeds to the next entry).  Returns the per-entry settlements in
dequeue order, the final `requestTimes` log, and the final clock. -/
def runQueue (o : RateLimitOptions) :
    List (Except JsValue V × Int) → List Int → Int →
    List (Except JsValue V) × List Int × Int
  | [], log, clock => ([], log, clock)
  | (outcome, dur) :: rest, log, clock =>
    let step := waitForSlot o log clock
    let start := clock + step.1.getD 0
    let r := runQueue o rest step.2 (start + dur)
    (outcome :: r.1, r.2)

end RateLimiter

/-- An event against the `RateLimiter` queue state: `handle` pushing a new
entry at the back (`this.queues.push(...)`), or one iteration of the drain
loop removing the front entry (`this.queues.shift()`). -/
inductive QueueEvent (J : Type) where
  | enqueue (j : J)
  | drainStep

/-- One event applied to (entries already launched in order, pending
queue). A drain step on an empty queue does nothing (the `while` loop has
exited). -/
def queueStep : List J × List J → QueueEvent J → List J × List J
  | (done, q), QueueEvent.enqueue j => (done, q ++ [j])
  | (done, q), QueueEvent.drainStep =>
    match q with
    | [] => (done, [])
    | j :: rest => (done ++ [j], rest)

/-- Run a sequence of queue events from a given state. -/
def queueRun (evs : List (QueueEvent J)) (st : List J × List J) :
    List J × List J :=
  evs.foldl queueStep st

/-- The entries submitted by a sequence of events, in submission order. -/
def submissions (evs : List (QueueEvent J)) : List J :=
  evs.filterMap (fun ev =>
    match ev with
    | QueueEvent.enqueue j => some j
    | QueueEvent.drainStep => none)

/-! ## The spec-side description of the admission check (for refinement) -/

/-- The admission-check algorithm as the specification words it, step by
step: prune by discarding every timestamp `<= now - interval`; if the
pruned log's length is `>= maxRequests`, suspend for
`oldestRemainingTimestamp + interval - now` milliseconds through the delay
primitive; append the original `now`; (the unit of work is then invoked).
Stated over the effective `maxRequests`/`interval` values. -/
def specAdmissionStep (maxRequests interval : Int) (log : List Int)
    (now : Int) : Option Int × List Int :=
  let kept := log.filter (fun time => ¬ (time ≤ now - interval))
  if (kept.length : Int) ≥ maxRequests then
    (some (sleep (kept.headI + interval - now)).1, kept ++ [now])
  else
    (none, kept ++ [now])

/-! ## Claim C8: the delay primitive -/

/-- C8: for every input `ms`, `sleep` resolves after `max(ms, 0)` elapsed
milliseconds — negative or zero `ms` resolves as soon as the scheduler can
dispatch it — and it never fails: the settlement is always a resolution,
never a rejection. -/
theorem sleep_resolves_after_clamped_delay (ms : Int) :
    (sleep ms).1 = max ms 0 ∧
    (sleep ms).1 = (if ms ≤ 0 then 0 else ms) ∧
    0 ≤ (sleep ms).1 ∧
    (sleep ms).2 = Except.ok () := by
  refine ⟨rfl, ?_, ?_, rfl⟩
  · show max ms 0 = _
    omega
  · show 0 ≤ max ms 0
    omega

/-! ## Claim C10: a configured 0 behaves like an omitted field -/

/-- C10: explicitly configuring `delay = 0` on `Retry` or `interval = 0` on
`RateLimiter` behaves identically to leaving the field unset: JavaScript
`||` substitutes the default (1500 ms) for every falsy configured value, so
the effective delay/interval is 1500 ms, not 0 ms, and the observable
behavior of `Retry.execute` and of the admission check coincides with the
unset configuration. -/
theorem zero_config_same_as_unset :
    Retry.effDelay ⟨none, some 0⟩ = 1500 ∧
    RateLimiter.effInterval ⟨none, some 0⟩ = 1500 ∧
    (∀ (V : Type) (m : Option Int) (outcomes : Nat → Except JsValue V),
      Retry.execute ⟨m, some 0⟩ outcomes = Retry.execute ⟨m, none⟩ outcomes) ∧
    (∀ (m : Option Int) (log : List Int) (now : Int),
      RateLimiter.waitForSlot ⟨m, some 0⟩ log now
        = RateLimiter.waitForSlot ⟨m, none⟩ log now) := by
  refine ⟨rfl, rfl, ?_, ?_⟩
  · intro V m outcomes
    simp [Retry.execute, Retry.effDelay, Retry.effMaxRetries]
  · intro m log now
    simp [RateLimiter.waitForSlot, RateLimiter.effInterval,
      RateLimiter.effMaxRequests]

/-! ## Claim C3: defaults and clamping of the RateLimiter options -/

/-- C3 counterexample: a configured `maxRequests = -1` is truthy in
JavaScript, so `maxRequests || 1` does *not* fall back to the default 1:
the admission check runs with `-1`, and on an empty log it takes the sleep
branch (with a zero-length sleep) where the default configuration takes
none — so neither the claimed fallback nor the claimed behavioral identity
holds for negative values. -/
theorem negative_maxRequests_not_defaulted :
    RateLimiter.effMaxRequests ⟨some (-1), none⟩ = -1 ∧
    RateLimiter.effMaxRequests ⟨some (-1), none⟩ ≠ 1 ∧
    RateLimiter.waitForSlot ⟨some (-1), none⟩ [] 0 = (some 0, [0]) ∧
    RateLimiter.waitForSlot ⟨some 1, some 1500⟩ [] 0 = (none, [0]) ∧
    RateLimiter.waitForSlot ⟨some (-1), none⟩ [] 0
      ≠ RateLimiter.waitForSlot ⟨some 1, some 1500⟩ [] 0 := by
  decide

/-- C3 amended: a configured `maxRequests` equal to 0, or unset, falls back
to the default of 1 (a strictly negative value is used as-is), and an unset
interval falls back to the default of 1500 ms; with 0-or-unset values the
admission behavior is identical to configuring the defaults explicitly. -/
theorem defaults_for_zero_or_unset_options :
    RateLimiter.effMaxRequests ⟨some 0, none⟩ = 1 ∧
    RateLimiter.effMaxRequests ⟨none, none⟩ = 1 ∧
    RateLimiter.effInterval ⟨none, none⟩ = 1500 ∧
    (∀ (log : List Int) (now : Int),
      RateLimiter.waitForSlot ⟨none, none⟩ log now
        = RateLimiter.waitForSlot ⟨some 1, some 1500⟩ log now) ∧
    (∀ (log : List Int) (now : Int),
      RateLimiter.waitForSlot ⟨some 0, none⟩ log now
        = RateLimiter.waitForSlot ⟨some 1, some 1500⟩ log now) := by
  refine ⟨rfl, rfl, rfl, ?_, ?_⟩ <;>
    · intro log now
      simp [RateLimiter.waitForSlot, RateLimiter.effInterval,
        RateLimiter.effMaxRequests, RateLimiter.DEFAULT_DELAY,
        RateLimiter.DEFAULT_MAX_REQUESTS]

/-! ## Claim C6: the admission check refines the spec's algorithm -/

/-- C6: for every meaningful configuration (effective `maxRequests >= 1`,
which holds for every non-negative configured value and for the default),
`waitForSlot` performs exactly the admission sequence the spec describes:
prune keeping only timestamps strictly greater than `now - interval`,
suspend for `oldestRemaining + interval - now` ms when the pruned log has
reached `maxRequests`, and append the original pre-delay `now`. -/
theorem waitForSlot_refines_spec (o : RateLimiter.RateLimitOptions)
    (log : List Int) (now : Int)
    (hM : 1 ≤ RateLimiter.effMaxRequests o) :
    RateLimiter.waitForSlot o log now
      = specAdmissionStep (RateLimiter.effMaxRequests o)
          (RateLimiter.effInterval o) log now := by
  simp only [RateLimiter.waitForSlot, specAdmissionStep]
  have hfil : log.filter (fun time => time > now - RateLimiter.effInterval o)
      = log.filter (fun time => ¬ (time ≤ now - RateLimiter.effInterval o)) := by
    refine List.filter_congr ?_
    intro a _
    simp [decide_not]
  rw [hfil]
  cases hk : log.filter (fun time => ¬ (time ≤ now - RateLimiter.effInterval o)) with
  | nil =>
    have hcond : ¬ ((((List.length ([] : List Int)) : Int))
        ≥ RateLimiter.effMaxRequests o) := by
      simp only [List.length_nil, Nat.cast_zero]
      omega
    rw [if_neg hcond, if_neg hcond]
  | cons hd tl =>
    by_cases hlen : (((hd :: tl).length : Int) ≥ RateLimiter.effMaxRequests o)
    · rw [if_pos hlen, if_pos hlen]
      rfl
    · rw [if_neg hlen, if_neg hlen]

/-! ## Claim C4: strict FIFO processing order -/

/-- C4: for every interleaving of submissions (`handle` pushing at the
back) and drain iterations (`shift` taking from the front), the entries
already launched followed by the still-pending queue equal the submission
sequence in order: the launched sequence is always a prefix of the
submission order, so entries enter their admission-and-launch sequence in
strict FIFO submission order and are never reordered or prioritized. -/
theorem queue_fifo_order (J : Type) (evs : List (QueueEvent J))
    (done q : List J) :
    (queueRun evs (done, q)).1 ++ (queueRun evs (done, q)).2
      = done ++ q ++ submissions evs := by
  induction evs generalizing done q with
  | nil => simp [queueRun, submissions]
  | cons ev rest ih =>
    cases ev with
    | enqueue j =>
      have h := ih done (q ++ [j])
      simp only [queueRun, List.foldl_cons, queueStep] at h ⊢
      rw [h]
      simp [submissions]
    | drainStep =>
      cases q with
      | nil =>
        have h := ih done []
        simp only [queueRun, List.foldl_cons, queueStep] at h ⊢
        rw [h]
        simp [submissions]
      | cons j q' =>
        have h := ih (done ++ [j]) q'
        simp only [queueRun, List.foldl_cons, queueStep] at h ⊢
        rw [h]
        simp [submissions]

/-! ## Claim C5: per-entry error isolation in the drain loop -/

/-- C5: every queued entry settles with exactly its own unit of work's
outcome — a failing entry rejects only its own promise, the drain loop
processes the entire queue regardless of failures — and the timestamp log,
admission delays and clock are unchanged under any reassignment of the
outcomes, so an error affects neither the log nor any later entry's
admission and execution. -/
theorem drain_isolates_errors (V : Type)
    (o : RateLimiter.RateLimitOptions)
    (jobs : List (Except JsValue V × Int)) (log : List Int) (clock : Int) :
    (RateLimiter.runQueue o jobs log clock).1 = jobs.map Prod.fst ∧
    ∀ (f : Except JsValue V → Except JsValue V),
      (RateLimiter.runQueue o (jobs.map (fun p => (f p.1, p.2))) log clock).2
        = (RateLimiter.runQueue o jobs log clock).2 := by
  constructor
  · induction jobs generalizing log clock with
    | nil => rfl
    | cons job rest ih =>
      obtain ⟨outcome, dur⟩ := job
      simp only [RateLimiter.runQueue, List.map_cons, List.cons.injEq,
        true_and]
      exact ih _ _
  · intro f
    induction jobs generalizing log clock with
    | nil => rfl
    | cons job rest ih =>
      obtain ⟨outcome, dur⟩ := job
      simp only [RateLimiter.runQueue, List.map_cons]
      exact ih _ _

/-! ## Retry loop lemmas -/

/-- If `0 ≤ m` then rendering `m.toNat` renders the same digits as `m`. -/
theorem toString_toNat_of_nonneg (m : Int) (h : 0 ≤ m) :
    toString m.toNat = toString m := by
  obtain ⟨k, rfl⟩ := Int.eq_ofNat_of_zero_le h
  rfl

/-- When every attempt fails, the attempt loop started with `r ≥ 1`
attempts remaining performs exactly `r` invocations, sleeps between
consecutive attempts only, and throws the terminal error built from the
final attempt's failure. -/
theorem executeAux_all_error (V : Type) (outcomes : Nat → Except JsValue V)
    (errs : Nat → JsValue) (h : ∀ k, outcomes k = Except.error (errs k))
    (delay : Int) (mrN : Nat) :
    ∀ r, 1 ≤ r →
      Retry.executeAux outcomes delay mrN r
        = ⟨Except.error (JsValue.errObj
              (Retry.maxRetriesMessage mrN (errs mrN))),
           r, List.replicate (r - 1) delay⟩ := by
  intro r
  induction r with
  | zero => intro h1; exact absurd h1 (by omega)
  | succ r ih =>
    intro _
    rw [Retry.executeAux, h (mrN - r)]
    dsimp only
    by_cases hr : r = 0
    · subst hr
      simp
    · rw [if_neg hr, ih (by omega)]
      have hrep : r + 1 - 1 = (r - 1) + 1 := by omega
      rw [hrep, List.replicate_succ]

/-- If every attempt before `k` fails and attempt `k` succeeds, the attempt
loop entered with `r` attempts remaining (current attempt `mrN - r + 1`,
which is at most `k`) returns attempt `k`'s value after exactly
`k - (mrN - r)` further invocations, sleeping only between failed attempts. -/
theorem executeAux_success (V : Type) (outcomes : Nat → Except JsValue V)
    (errs : Nat → JsValue) (v : V) (k : Nat) (delay : Int) (mrN : Nat)
    (hok : outcomes k = Except.ok v)
    (hfails : ∀ j, 1 ≤ j → j < k → outcomes j = Except.error (errs j)) :
    ∀ r, 1 ≤ r → r ≤ mrN → mrN - r + 1 ≤ k → k ≤ mrN →
      Retry.executeAux outcomes delay mrN r
        = ⟨Except.ok v, k - (mrN - r),
           List.replicate (k - (mrN - r) - 1) delay⟩ := by
  intro r
  induction r with
  | zero => intro h1 _ _ _; exact absurd h1 (by omega)
  | succ r ih =>
    intro _ hrm hak hkm
    by_cases hac : mrN - r = k
    · rw [Retry.executeAux, hac, hok]
      dsimp only
      have h1 : k - (mrN - (r + 1)) = 1 := by omega
      rw [h1]
      rfl
    · have halt : mrN - r < k := by omega
      have ha1 : 1 ≤ mrN - r := by omega
      rw [Retry.executeAux, hfails (mrN - r) ha1 halt]
      dsimp only
      have hr : ¬ (r = 0) := by omega
      rw [if_neg hr, ih (by omega) (by omega) (by omega) hkm]
      have hc : k - (mrN - (r + 1)) = (k - (mrN - r)) + 1 := by omega
      rw [hc]
      have hs : (k - (mrN - r)) + 1 - 1 = (k - (mrN - r) - 1) + 1 := by omega
      rw [hs, List.replicate_succ]

/-! ## Claim C2: retry exhaustion -/

/-- C2: for every configured `maxRetries >= 1`, if the unit of work fails
on every attempt then `Retry.execute` invokes it exactly `maxRetries`
times and rejects with a terminal `Error` whose message contains both the
configured `maxRetries` value and the textual description of the last
failure (an `Error`'s `message`, any other thrown value coerced by
`String(...)`). -/
theorem retry_exhaustion_calls_and_message (V : Type) (mr : Int)
    (hmr : 1 ≤ mr) (d : Option Int) (outcomes : Nat → Except JsValue V)
    (errs : Nat → JsValue)
    (hfail : ∀ k, outcomes k = Except.error (errs k)) :
    (Retry.execute ⟨some mr, d⟩ outcomes).calls = mr.toNat ∧
    (Retry.execute ⟨some mr, d⟩ outcomes).result
      = Except.error (JsValue.errObj
          (Retry.maxRetriesMessage mr.toNat (errs mr.toNat))) ∧
    (Retry.execute ⟨some mr, d⟩ outcomes).sleeps
      = List.replicate (mr.toNat - 1) (Retry.effDelay ⟨some mr, d⟩) ∧
    strContains (Retry.maxRetriesMessage mr.toNat (errs mr.toNat))
      (toString mr) ∧
    strContains (Retry.maxRetriesMessage mr.toNat (errs mr.toNat))
      (errorMessageOf (errs mr.toNat)) := by
  have heff : Retry.effMaxRetries ⟨some mr, d⟩ = mr := by
    simp [Retry.effMaxRetries, show mr ≠ 0 by omega]
  have hrun : Retry.execute ⟨some mr, d⟩ outcomes
      = ⟨Except.error (JsValue.errObj
            (Retry.maxRetriesMessage mr.toNat (errs mr.toNat))),
         mr.toNat, List.replicate (mr.toNat - 1)
           (Retry.effDelay ⟨some mr, d⟩)⟩ := by
    rw [Retry.execute, heff, if_neg (by omega)]
    exact executeAux_all_error V outcomes errs hfail _ _ _ (by omega)
  refine ⟨by rw [hrun], by rw [hrun], by rw [hrun], ?_, ?_⟩
  · refine ⟨"| Mailer Retry > Max retries reached (",
      "): " ++ errorMessageOf (errs mr.toNat), ?_⟩
    rw [← toString_toNat_of_nonneg mr (by omega)]
    simp [Retry.maxRetriesMessage, String.append_assoc]
  · refine ⟨"| Mailer Retry > Max retries reached ("
        ++ toString mr.toNat ++ "): ", "", ?_⟩
    simp [Retry.maxRetriesMessage, String.append_assoc]

/-- C2 witness: `maxRetries = 2` with a unit of work that always throws the
string `"boom"`. -/
theorem retry_exhaustion_witness :
    (1 : Int) ≤ 2 ∧
    ((Retry.execute (V := Int) ⟨some 2, none⟩
        (fun _ => Except.error (JsValue.str "boom"))).calls = (2 : Int).toNat ∧
      (Retry.execute (V := Int) ⟨some 2, none⟩
          (fun _ => Except.error (JsValue.str "boom"))).result
        = Except.error (JsValue.errObj
            (Retry.maxRetriesMessage (2 : Int).toNat (JsValue.str "boom"))) ∧
      (Retry.execute (V := Int) ⟨some 2, none⟩
          (fun _ => Except.error (JsValue.str "boom"))).sleeps
        = List.replicate ((2 : Int).toNat - 1)
            (Retry.effDelay ⟨some 2, none⟩) ∧
      strContains (Retry.maxRetriesMessage (2 : Int).toNat (JsValue.str "boom"))
        (toString (2 : Int)) ∧
      strContains (Retry.maxRetriesMessage (2 : Int).toNat (JsValue.str "boom"))
        (errorMessageOf (JsValue.str "boom"))) :=
  ⟨by decide,
    retry_exhaustion_calls_and_message Int 2 (by decide) none
      (fun _ => Except.error (JsValue.str "boom"))
      (fun _ => JsValue.str "boom") (fun _ => rfl)⟩

/-! ## Claim C7: the retry floor -/

/-- C7: configuring `maxRetries = 0` still invokes the unit of work exactly
once (0 is falsy, so the effective `maxRetries` is the default 1), and a
failure of that single attempt rejects with the terminal error immediately,
without ever suspending for the inter-attempt delay. -/
theorem retry_floor_single_attempt (V : Type) (d : Option Int)
    (outcomes : Nat → Except JsValue V) (e : JsValue)
    (h1 : outcomes 1 = Except.error e) :
    (Retry.execute ⟨some 0, d⟩ outcomes).calls = 1 ∧
    (Retry.execute ⟨some 0, d⟩ outcomes).result
      = Except.error (JsValue.errObj (Retry.maxRetriesMessage 1 e)) ∧
    (Retry.execute ⟨some 0, d⟩ outcomes).sleeps = [] := by
  have heff : Retry.effMaxRetries ⟨some 0, d⟩ = 1 := rfl
  have hrun : Retry.execute ⟨some 0, d⟩ outcomes
      = ⟨Except.error (JsValue.errObj (Retry.maxRetriesMessage 1 e)), 1, []⟩ := by
    rw [Retry.execute, heff, if_neg (by omega)]
    show Retry.executeAux outcomes _ 1 1 = _
    rw [Retry.executeAux]
    have : (1 : Nat) - 0 = 1 := rfl
    rw [this, h1]
    rfl
  exact ⟨by rw [hrun], by rw [hrun], by rw [hrun]⟩

/-- C7 witness: `maxRetries = 0` with a unit of work that throws
`Error("boom")`. -/
theorem retry_floor_witness :
    ((fun _ => Except.error (JsValue.errObj "boom") :
        Nat → Except JsValue Int) 1
      = Except.error (JsValue.errObj "boom")) ∧
    ((Retry.execute (V := Int) ⟨some 0, none⟩
        (fun _ => Except.error (JsValue.errObj "boom"))).calls = 1 ∧
      (Retry.execute (V := Int) ⟨some 0, none⟩
          (fun _ => Except.error (JsValue.errObj "boom"))).result
        = Except.error (JsValue.errObj
            (Retry.maxRetriesMessage 1 (JsValue.errObj "boom"))) ∧
      (Retry.execute (V := Int) ⟨some 0, none⟩
          (fun _ => Except.error (JsValue.errObj "boom"))).sleeps = []) :=
  ⟨rfl, retry_floor_single_attempt Int none
    (fun _ => Except.error (JsValue.errObj "boom"))
    (JsValue.errObj "boom") rfl⟩

/-! ## Claim C9: retry success short-circuit -/

/-- C9: if the unit of work succeeds on attempt `k` with
`k ≤ maxRetries` (effective), `Retry.execute` resolves with that attempt's
result, the unit of work is invoked exactly `k` times, and the only sleeps
taken are the `k - 1` inter-attempt delays before the success — none after
it. -/
theorem retry_success_short_circuit (V : Type) (o : Retry.RetryOptions)
    (outcomes : Nat → Except JsValue V) (errs : Nat → JsValue) (v : V)
    (k : Nat) (hk1 : 1 ≤ k) (hkm : (k : Int) ≤ Retry.effMaxRetries o)
    (hok : outcomes k = Except.ok v)
    (hfails : ∀ j, 1 ≤ j → j < k → outcomes j = Except.error (errs j)) :
    (Retry.execute o outcomes).result = Except.ok v ∧
    (Retry.execute o outcomes).calls = k ∧
    (Retry.execute o outcomes).sleeps
      = List.replicate (k - 1) (Retry.effDelay o) := by
  have hm1 : 1 ≤ Retry.effMaxRetries o := by omega
  have hkN : k ≤ (Retry.effMaxRetries o).toNat := by omega
  have hrun : Retry.execute o outcomes
      = ⟨Except.ok v, k, List.replicate (k - 1) (Retry.effDelay o)⟩ := by
    rw [Retry.execute, if_neg (by omega)]
    have h := executeAux_success V outcomes errs v k (Retry.effDelay o)
      (Retry.effMaxRetries o).toNat hok hfails
      (Retry.effMaxRetries o).toNat (by omega) (by omega) (by omega) hkN
    rw [h]
    have hz : (Retry.effMaxRetries o).toNat
        - (Retry.effMaxRetries o).toNat = 0 := by omega
    rw [hz]
    simp
  exact ⟨by rw [hrun], by rw [hrun], by rw [hrun]⟩

/-- C9 witness: `maxRetries = 3, delay = 100` with a unit of work failing
once and succeeding on attempt 2. -/
theorem retry_success_witness :
    1 ≤ 2 ∧
    ((Retry.execute (V := Int) ⟨some 3, some 100⟩
        (fun j => if j = 2 then Except.ok 7
          else Except.error (JsValue.str "x"))).result = Except.ok 7 ∧
      (Retry.execute (V := Int) ⟨some 3, some 100⟩
          (fun j => if j = 2 then Except.ok 7
            else Except.error (JsValue.str "x"))).calls = 2 ∧
      (Retry.execute (V := Int) ⟨some 3, some 100⟩
          (fun j => if j = 2 then Except.ok 7
            else Except.error (JsValue.str "x"))).sleeps
        = List.replicate (2 - 1) (Retry.effDelay ⟨some 3, some 100⟩)) :=
  ⟨by decide,
    retry_success_short_circuit Int ⟨some 3, some 100⟩
      (fun j => if j = 2 then Except.ok 7 else Except.error (JsValue.str "x"))
      (fun _ => JsValue.str "x") 7 2 (by decide) (by decide) rfl
      (fun j hj1 hj2 => by
        have hj : j = 1 := by omega
        subst hj
        rfl)⟩

/-- C6 witness: the default configuration on a log holding one fresh
timestamp. -/
theorem waitForSlot_refines_spec_witness :
    (1 ≤ RateLimiter.effMaxRequests ⟨none, none⟩) ∧
    RateLimiter.waitForSlot ⟨none, none⟩ [0] 0
      = specAdmissionStep (RateLimiter.effMaxRequests ⟨none, none⟩)
          (RateLimiter.effInterval ⟨none, none⟩) [0] 0 :=
  ⟨by decide, waitForSlot_refines_spec ⟨none, none⟩ [0] 0 (by decide)⟩

/-! ## Run-model lemmas for the RateLimiter sliding window -/

/-- The elapsed admission delay of a check is never negative. -/
theorem waitForSlot_delay_nonneg (o : RateLimiter.RateLimitOptions)
    (log : List Int) (now : Int) :
    0 ≤ ((RateLimiter.waitForSlot o log now).1.getD 0) := by
  simp only [RateLimiter.waitForSlot]
  split
  · split
    · simp only [Option.getD_some, sleep]
      omega
    · simp
  · simp

/-- Each admission check replaces the log by its pruned form with the
check's `now` appended, whichever branch is taken. -/
theorem runLog_succ (o : RateLimiter.RateLimitOptions) (n : Nat → Int)
    (i : Nat) :
    RateLimiter.runLog o n (i + 1)
      = RateLimiter.prunedAt o n i ++ [n i] := by
  rw [RateLimiter.runLog]
  simp only [RateLimiter.waitForSlot, RateLimiter.prunedAt]
  split
  · split <;> rfl
  · rfl

/-- An admission check whose pruned log is below capacity starts its entry
immediately at the check time. -/
theorem startAt_of_small (o : RateLimiter.RateLimitOptions) (n : Nat → Int)
    (i : Nat)
    (h : ((RateLimiter.prunedAt o n i).length : Int)
      < RateLimiter.effMaxRequests o) :
    RateLimiter.startAt o n i = n i := by
  simp only [RateLimiter.startAt, RateLimiter.stepStart,
    RateLimiter.waitForSlot]
  rw [if_neg (by simpa [RateLimiter.prunedAt] using not_le.mpr h)]
  simp

/-- An admission check whose pruned log has reached capacity sleeps until
exactly `oldest + interval`: the pruned log's head plus the interval. -/
theorem startAt_of_sleep (o : RateLimiter.RateLimitOptions) (n : Nat → Int)
    (i : Nat) (hd : Int) (tl : List Int)
    (h : RateLimiter.effMaxRequests o
      ≤ ((RateLimiter.prunedAt o n i).length : Int))
    (hcons : RateLimiter.prunedAt o n i = hd :: tl) :
    RateLimiter.startAt o n i = hd + RateLimiter.effInterval o := by
  have hmem : hd ∈ RateLimiter.prunedAt o n i := by
    rw [hcons]
    exact List.mem_cons_self hd tl
  have hfresh : hd > n i - RateLimiter.effInterval o := by
    have := (List.mem_filter.mp hmem).2
    simpa using this
  simp only [RateLimiter.startAt, RateLimiter.stepStart,
    RateLimiter.waitForSlot]
  rw [if_pos (by simpa [RateLimiter.prunedAt] using h)]
  have hhd : (RateLimiter.runLog o n i).filter
      (fun time => time > n i - RateLimiter.effInterval o) = hd :: tl := by
    simpa [RateLimiter.prunedAt] using hcons
  rw [hhd]
  simp only [List.head?_cons, Option.getD_some, sleep]
  omega

/-- The check time never exceeds the entry's start time. -/
theorem le_startAt (o : RateLimiter.RateLimitOptions) (n : Nat → Int)
    (i : Nat) : n i ≤ RateLimiter.startAt o n i := by
  have := waitForSlot_delay_nonneg o (RateLimiter.runLog o n i) (n i)
  simp only [RateLimiter.startAt, RateLimiter.stepStart]
  omega

/-- In a sequential run the check times are monotone. -/
theorem n_mono (o : RateLimiter.RateLimitOptions) (n : Nat → Int)
    (hseq : RateLimiter.SeqOk o n) : Monotone n :=
  monotone_nat_of_le_succ fun i => le_trans (le_startAt o n i) (hseq i)

/-- In a sequential run the start times are monotone. -/
theorem startAt_mono (o : RateLimiter.RateLimitOptions) (n : Nat → Int)
    (hseq : RateLimiter.SeqOk o n) :
    Monotone (RateLimiter.startAt o n) :=
  monotone_nat_of_le_succ fun i => le_trans (hseq i) (le_startAt o n (i + 1))

/-- Every timestamp in the log is at most the current check time. -/
theorem runLog_le_n (o : RateLimiter.RateLimitOptions) (n : Nat → Int)
    (hseq : RateLimiter.SeqOk o n) :
    ∀ i, ∀ x ∈ RateLimiter.runLog o n i, x ≤ n i := by
  intro i
  induction i with
  | zero => simp [RateLimiter.runLog]
  | succ i ih =>
    intro x hx
    rw [runLog_succ] at hx
    rcases List.mem_append.mp hx with hx | hx
    · have hx' : x ∈ RateLimiter.runLog o n i :=
        List.mem_of_mem_filter hx
      exact le_trans (ih x hx') (n_mono o n hseq (Nat.le_succ i))
    · have : x = n i := by simpa using hx
      subst this
      exact n_mono o n hseq (Nat.le_succ i)

/-- The log is sorted in nondecreasing order. -/
theorem runLog_sorted (o : RateLimiter.RateLimitOptions) (n : Nat → Int)
    (hseq : RateLimiter.SeqOk o n) :
    ∀ i, (RateLimiter.runLog o n i).Sorted (fun x y => x ≤ y) := by
  intro i
  induction i with
  | zero => simp [RateLimiter.runLog]
  | succ i ih =>
    rw [runLog_succ]
    rw [List.Sorted, List.pairwise_append]
    refine ⟨List.Pairwise.sublist (List.filter_sublist _) ih,
      List.pairwise_singleton _ _, ?_⟩
    intro x hx y hy
    have hy' : y = n i := by simpa using hy
    subst hy'
    exact runLog_le_n o n hseq i x (List.mem_of_mem_filter hx)

/-- The pruned log is sorted as well. -/
theorem prunedAt_sorted (o : RateLimiter.RateLimitOptions) (n : Nat → Int)
    (hseq : RateLimiter.SeqOk o n) (i : Nat) :
    (RateLimiter.prunedAt o n i).Sorted (fun x y => x ≤ y) :=
  List.Pairwise.sublist (List.filter_sublist _) (runLog_sorted o n hseq i)

/-- Pruning at a check inside the window `(t, t + interval]` preserves the
timestamps above `t`: they are too recent to be discarded. -/
theorem fresh_filter_prunedAt (o : RateLimiter.RateLimitOptions)
    (n : Nat → Int) (i : Nat) (t : Int)
    (hni : n i ≤ t + RateLimiter.effInterval o) :
    (RateLimiter.prunedAt o n i).filter (fun x => t < x)
      = (RateLimiter.runLog o n i).filter (fun x => t < x) := by
  rw [RateLimiter.prunedAt, List.filter_filter]
  refine List.filter_congr ?_
  intro a ha
  by_cases h : t < a
  · have hk : a > n i - RateLimiter.effInterval o := by omega
    simp [h, hk]
  · simp [h]

/-- The log's pruned form never holds more than the effective
`maxRequests` timestamps: a below-capacity check adds one to a log of
fewer than `maxRequests`, and an at-capacity check sleeps until its
pruned head has left the window, so the next prune drops that head. -/
theorem prunedAt_length_le (o : RateLimiter.RateLimitOptions)
    (n : Nat → Int) (hM : 1 ≤ RateLimiter.effMaxRequests o)
    (hseq : RateLimiter.SeqOk o n) :
    ∀ i, ((RateLimiter.prunedAt o n i).length : Int)
      ≤ RateLimiter.effMaxRequests o := by
  intro i
  induction i with
  | zero =>
    simp [RateLimiter.prunedAt, RateLimiter.runLog]
    omega
  | succ i ih =>
    have hstep : RateLimiter.prunedAt o n (i + 1)
        = (RateLimiter.prunedAt o n i ++ [n i]).filter
            (fun time => time > n (i + 1) - RateLimiter.effInterval o) := by
      rw [RateLimiter.prunedAt, runLog_succ]
    by_cases hcase : RateLimiter.effMaxRequests o
        ≤ ((RateLimiter.prunedAt o n i).length : Int)
    · cases hc : RateLimiter.prunedAt o n i with
      | nil =>
        rw [hc] at hcase
        simp at hcase
        omega
      | cons hd tl =>
        have hst := startAt_of_sleep o n i hd tl hcase hc
        have hns : hd + RateLimiter.effInterval o ≤ n (i + 1) := by
          have := hseq i
          omega
        rw [hstep, hc, List.filter_append, List.length_append,
          List.filter_cons,
          if_neg (by
            simp only [decide_eq_true_eq]
            omega)]
        have h1 := List.length_filter_le
          (fun time => decide (time > n (i + 1) - RateLimiter.effInterval o)) tl
        have h2 := List.length_filter_le
          (fun time => decide (time > n (i + 1) - RateLimiter.effInterval o))
          [n i]
        rw [hc] at ih
        simp only [List.length_cons] at ih
        simp only [List.length_singleton] at h2
        push_cast
        omega
    · rw [hstep]
      have h1 := List.length_filter_le
        (fun time => decide (time > n (i + 1) - RateLimiter.effInterval o))
        (RateLimiter.prunedAt o n i ++ [n i])
      have h2 : (RateLimiter.prunedAt o n i ++ [n i]).length
          = (RateLimiter.prunedAt o n i).length + 1 := by simp
      rw [h2] at h1
      omega

/-- One admission check adds one fresh timestamp to the log when its check
time lies above `t`, and removes none as long as the check time is inside
`t + interval`. -/
theorem fresh_succ (o : RateLimiter.RateLimitOptions) (n : Nat → Int)
    (i : Nat) (t : Int) (hni : n i ≤ t + RateLimiter.effInterval o) :
    ((RateLimiter.runLog o n (i + 1)).filter (fun x => t < x)).length
      = ((RateLimiter.runLog o n i).filter (fun x => t < x)).length
        + (if t < n i then 1 else 0) := by
  rw [runLog_succ, List.filter_append, List.length_append,
    fresh_filter_prunedAt o n i t hni]
  congr 1
  by_cases h : t < n i
  · simp [h]
  · simp [h]

/-- The central counting argument: if the entries `a` and `b` both start
inside the half-open window `(t, t + interval]`, then `b - a` is at most
the effective `maxRequests`.  Every check strictly between them records a
fresh timestamp that stays in the log until check `b`, yet check `b`'s
pruned log holds at most `maxRequests` timestamps, of which at least one —
its head when it sleeps, by capacity when it does not — is not fresh. -/
theorem window_start_gap (o : RateLimiter.RateLimitOptions) (n : Nat → Int)
    (hM : 1 ≤ RateLimiter.effMaxRequests o) (hseq : RateLimiter.SeqOk o n)
    (t : Int) (a b : Nat) (hab : a ≤ b)
    (ha : t < RateLimiter.startAt o n a)
    (hb : RateLimiter.startAt o n b ≤ t + RateLimiter.effInterval o) :
    (b : Int) - a ≤ RateLimiter.effMaxRequests o := by
  rcases Nat.eq_or_lt_of_le hab with heq | hlt
  · subst heq
    simp
    omega
  · have hwin : ∀ i, a ≤ i → i ≤ b →
        t < RateLimiter.startAt o n i ∧
        RateLimiter.startAt o n i ≤ t + RateLimiter.effInterval o := by
      intro i h1 h2
      exact ⟨lt_of_lt_of_le ha (startAt_mono o n hseq h1),
        le_trans (startAt_mono o n hseq h2) hb⟩
    have hn_in : ∀ i, a + 1 ≤ i → i ≤ b →
        t < n i ∧ n i ≤ t + RateLimiter.effInterval o := by
      intro i h1 h2
      have hip : RateLimiter.startAt o n (i - 1) ≤ n i := by
        have h3 := hseq (i - 1)
        have h4 : i - 1 + 1 = i := by omega
        rwa [h4] at h3
      have h5 := (hwin (i - 1) (by omega) (by omega)).1
      have h6 := (hwin i (by omega) h2).2
      have h7 := le_startAt o n i
      exact ⟨by omega, by omega⟩
    have hchain : ∀ i, a + 1 ≤ i → i ≤ b →
        (i : Int) - a - 1
          ≤ (((RateLimiter.runLog o n i).filter
              (fun x => t < x)).length : Int) := by
      intro i h1
      induction i, h1 using Nat.le_induction with
      | base =>
        intro _
        omega
      | succ i hai ih =>
        intro hib
        have hni := hn_in i hai (by omega)
        have hstep := fresh_succ o n i t hni.2
        rw [hstep, if_pos hni.1]
        have h8 := ih (by omega)
        push_cast at h8 ⊢
        omega
    have hFb := hchain b (by omega) (le_refl b)
    have hnb := hn_in b (by omega) (le_refl b)
    have hcb := fresh_filter_prunedAt o n b t hnb.2
    rw [← hcb] at hFb
    have hinv := prunedAt_length_le o n hM hseq b
    by_cases hsl : RateLimiter.effMaxRequests o
        ≤ ((RateLimiter.prunedAt o n b).length : Int)
    · cases hc : RateLimiter.prunedAt o n b with
      | nil =>
        rw [hc] at hsl
        simp at hsl
        omega
      | cons hd tl =>
        have hst := startAt_of_sleep o n b hd tl hsl hc
        have hhd : hd ≤ t := by
          have := (hwin b hab (le_refl b)).2
          omega
        have hfb_le : (((RateLimiter.prunedAt o n b).filter
              (fun x => t < x)).length : Int) ≤ (tl.length : Int) := by
          rw [hc, List.filter_cons,
            if_neg (by
              simp only [decide_eq_true_eq]
              omega)]
          exact_mod_cast List.length_filter_le _ tl
        rw [hc] at hinv
        simp only [List.length_cons] at hinv
        push_cast at hinv
        omega
    · have hfb_le : (((RateLimiter.prunedAt o n b).filter
            (fun x => t < x)).length : Int)
          ≤ ((RateLimiter.prunedAt o n b).length : Int) := by
        exact_mod_cast List.length_filter_le _ _
      omega

/-! ## Claim C1: the sliding-window admission bound -/

/-- C1 amended: in every sequential run of a single `RateLimiter`, any
half-open window of `interval` milliseconds sees at most
`maxRequests + 1` units of work begin execution — one more than the
configured bound, because an at-capacity check records its pre-sleep
check time, which can expire during its own sleep and let the next entry
through immediately. -/
theorem rate_limiter_window_bound (o : RateLimiter.RateLimitOptions)
    (n : Nat → Int) (hM : 1 ≤ RateLimiter.effMaxRequests o)
    (hseq : RateLimiter.SeqOk o n) (t : Int) (N : Nat) :
    ((Finset.range N).filter (fun i =>
        t < RateLimiter.startAt o n i ∧
        RateLimiter.startAt o n i ≤ t + RateLimiter.effInterval o)).card
      ≤ (RateLimiter.effMaxRequests o).toNat + 1 := by
  set W := (Finset.range N).filter (fun i =>
    t < RateLimiter.startAt o n i ∧
    RateLimiter.startAt o n i ≤ t + RateLimiter.effInterval o) with hWdef
  rcases W.eq_empty_or_nonempty with hemp | hne
  · rw [hemp]
    simp
  · have hamem := Finset.mem_filter.mp (W.min'_mem hne)
    have hbmem := Finset.mem_filter.mp (W.max'_mem hne)
    have hab : W.min' hne ≤ W.max' hne := W.min'_le _ (W.max'_mem hne)
    have hgap := window_start_gap o n hM hseq t (W.min' hne) (W.max' hne)
      hab hamem.2.1 hbmem.2.2
    have hsub : W ⊆ Finset.Icc (W.min' hne) (W.max' hne) := by
      intro i hi
      exact Finset.mem_Icc.mpr ⟨W.min'_le i hi, W.le_max' i hi⟩
    have hcard : W.card ≤ W.max' hne + 1 - W.min' hne := by
      have := Finset.card_le_card hsub
      rwa [Nat.card_Icc] at this
    omega

/-- Check times of the C1 counterexample run: three units of work
submitted at time 0 (the third check happens when the second entry's sleep
ends at 1000), then idle periods of a full interval between later
submissions. -/
def burstChecks : Nat → Int :=
  fun i => if i ≤ 1 then 0 else 1000 * ((i : Int) - 1)

/-- Options of the C1 counterexample run. -/
def burstOpts : RateLimiter.RateLimitOptions := ⟨some 1, some 1000⟩

/-- The log of the counterexample run: the second check records its
pre-sleep time 0, which has already expired when its sleep ends at 1000,
so the third check prunes to an empty window. -/
theorem burst_runLog : ∀ i, RateLimiter.runLog burstOpts burstChecks i =
    if i = 0 then [] else if i = 1 then [0] else if i = 2 then [0, 0]
    else [1000 * ((i : Int) - 2)] := by
  intro i
  induction i with
  | zero => rfl
  | succ i ih =>
    rw [RateLimiter.runLog, ih]
    match i with
    | 0 => decide
    | 1 => decide
    | 2 => decide
    | (j + 3) =>
      have h0 : ¬ (j + 3 = 0) := by omega
      have h1 : ¬ (j + 3 = 1) := by omega
      have h2 : ¬ (j + 3 = 2) := by omega
      have h0' : ¬ (j + 3 + 1 = 0) := by omega
      have h1' : ¬ (j + 3 + 1 = 1) := by omega
      have h2' : ¬ (j + 3 + 1 = 2) := by omega
      rw [if_neg h0, if_neg h1, if_neg h2, if_neg h0', if_neg h1', if_neg h2']
      have he1 : (1000 * (((j + 3 : Nat) : Int) - 2))
          = 1000 * ((j : Int) + 1) := by
        push_cast
        ring
      have he2 : (1000 * (((j + 3 + 1 : Nat) : Int) - 2))
          = 1000 * ((j : Int) + 2) := by
        push_cast
        ring
      have hnc : burstChecks (j + 3) = 1000 * ((j : Int) + 2) := by
        simp only [burstChecks, if_neg (by omega : ¬ (j + 3 ≤ 1))]
        push_cast
        ring
      rw [he1, he2, hnc]
      simp only [RateLimiter.waitForSlot,
        show RateLimiter.effInterval burstOpts = 1000 from rfl,
        show RateLimiter.effMaxRequests burstOpts = 1 from rfl]
      rw [List.filter_cons, List.filter_nil,
        if_neg (show ¬ ((decide (1000 * ((j : Int) + 1)
            > 1000 * ((j : Int) + 2) - 1000)) = true) from by
          simp only [decide_eq_true_eq]
          omega)]
      rw [if_neg (show ¬ (((List.length ([] : List Int)) : Int) ≥ 1) from by
        simp)]
      simp
  /- the per-index goals above: checks 0 and 1 read time 0; check 2 reads
  1000 and prunes both stale zeros away; later checks each prune away the
  single previous timestamp, a full interval old. -/

/-- The counterexample run is a genuine sequential run: each check time is
at least the previous entry's start time. -/
theorem burst_seqOk : RateLimiter.SeqOk burstOpts burstChecks := by
  intro i
  show RateLimiter.stepStart burstOpts
    (RateLimiter.runLog burstOpts burstChecks i) (burstChecks i)
      ≤ burstChecks (i + 1)
  rw [burst_runLog i]
  match i with
  | 0 => decide
  | 1 => decide
  | 2 => decide
  | (j + 3) =>
    have h0 : ¬ (j + 3 = 0) := by omega
    have h1 : ¬ (j + 3 = 1) := by omega
    have h2 : ¬ (j + 3 = 2) := by omega
    rw [if_neg h0, if_neg h1, if_neg h2]
    have he1 : (1000 * (((j + 3 : Nat) : Int) - 2))
        = 1000 * ((j : Int) + 1) := by
      push_cast
      ring
    have hnc : burstChecks (j + 3) = 1000 * ((j : Int) + 2) := by
      simp only [burstChecks, if_neg (by omega : ¬ (j + 3 ≤ 1))]
      push_cast
      ring
    have hnc' : burstChecks (j + 3 + 1) = 1000 * ((j : Int) + 3) := by
      simp only [burstChecks, if_neg (by omega : ¬ (j + 3 + 1 ≤ 1))]
      push_cast
      ring
    rw [he1, hnc, hnc']
    simp only [RateLimiter.stepStart, RateLimiter.waitForSlot,
      show RateLimiter.effInterval burstOpts = 1000 from rfl,
      show RateLimiter.effMaxRequests burstOpts = 1 from rfl]
    rw [List.filter_cons, List.filter_nil,
      if_neg (show ¬ ((decide (1000 * ((j : Int) + 1)
          > 1000 * ((j : Int) + 2) - 1000)) = true) from by
        simp only [decide_eq_true_eq]
        omega)]
    rw [if_neg (show ¬ (((List.length ([] : List Int)) : Int) ≥ 1) from by
      simp)]
    simp only [Option.getD_none]
    omega

/-- C1 counterexample: with `maxRequests = 1, interval = 1000` and three
units of work submitted at time 0 (a genuine sequential run), the second
entry starts at 1000 after its sleep and the third entry starts at 1000 as
well, because the second entry's recorded pre-sleep timestamp 0 has
already left the window: two execution-starts fall inside the single
window `(0, 1000]`, exceeding `maxRequests = 1`. -/
theorem rate_limiter_admission_bound_counterexample :
    RateLimiter.SeqOk burstOpts burstChecks ∧
    RateLimiter.effMaxRequests burstOpts = 1 ∧
    RateLimiter.effInterval burstOpts = 1000 ∧
    RateLimiter.startAt burstOpts burstChecks 1 = 1000 ∧
    RateLimiter.startAt burstOpts burstChecks 2 = 1000 ∧
    ((Finset.range 3).filter (fun i =>
        (0 : Int) < RateLimiter.startAt burstOpts burstChecks i ∧
        RateLimiter.startAt burstOpts burstChecks i ≤ 0 + 1000)).card = 2 :=
  ⟨burst_seqOk, rfl, rfl, by decide, by decide, by decide⟩

/-- Check times of the C1 witness run: everything at time 0; the negative
interval makes every prune empty, so every check starts its entry
immediately and the sequencing constraint holds. -/
def quietChecks : Nat → Int := fun _ => 0

/-- Options of the C1 witness run. -/
def quietOpts : RateLimiter.RateLimitOptions := ⟨some 1, some (-1)⟩

/-- The log of the witness run stabilizes at a single timestamp. -/
theorem quiet_runLog : ∀ i, RateLimiter.runLog quietOpts quietChecks i =
    if i = 0 then [] else [0] := by
  intro i
  induction i with
  | zero => rfl
  | succ i ih =>
    rw [RateLimiter.runLog, ih]
    match i with
    | 0 => decide
    | (j + 1) =>
      rw [if_neg (by omega : ¬ (j + 1 = 0)),
        if_neg (by omega : ¬ (j + 1 + 1 = 0))]
      show (RateLimiter.waitForSlot quietOpts [0] 0).2 = [0]
      decide

/-- The witness run is a genuine sequential run. -/
theorem quiet_seqOk : RateLimiter.SeqOk quietOpts quietChecks := by
  intro i
  show RateLimiter.stepStart quietOpts
    (RateLimiter.runLog quietOpts quietChecks i) (quietChecks i)
      ≤ quietChecks (i + 1)
  rw [quiet_runLog i]
  match i with
  | 0 => decide
  | (j + 1) =>
    rw [if_neg (by omega : ¬ (j + 1 = 0))]
    show RateLimiter.stepStart quietOpts [0] 0 ≤ 0
    decide

/-- C1 witness: the amended window bound applied to a concrete sequential
run. -/
theorem rate_limiter_window_bound_witness :
    (1 ≤ RateLimiter.effMaxRequests quietOpts ∧
      RateLimiter.SeqOk quietOpts quietChecks) ∧
    ((Finset.range 4).filter (fun i =>
        (0 : Int) < RateLimiter.startAt quietOpts quietChecks i ∧
        RateLimiter.startAt quietOpts quietChecks i
          ≤ 0 + RateLimiter.effInterval quietOpts)).card
      ≤ (RateLimiter.effMaxRequests quietOpts).toNat + 1 :=
  ⟨⟨by decide, quiet_seqOk⟩,
    rate_limiter_window_bound quietOpts quietChecks (by decide) quiet_seqOk 0 4⟩
